import Mathlib

/-!
# Verification of the rusty_clip_commander store core

Shallow embedding of `src/main.rs`.  The program keeps a
`Clipboard { data: HashMap<String, HashMap<String, String>>, filepath, current }`
and mutates it through the interactive actions Save / Load / Search / Delete /
Export / Import, persisting `data` as pretty-printed JSON.

Modelling decisions:
* `HashMap<String, α>` is modelled as an association list `List (String × α)`
  whose list order stands in for the map's (arbitrary) iteration order.
  `insert` replaces the first binding in place (or appends), `remove` drops the
  first binding, lookup returns the first binding — matching `HashMap`
  semantics for the duplicate-free lists a real `HashMap` yields.
* The on-disk JSON file is modelled at the level of the JSON document tree
  (`Json` below); serde_json's text layer is the trusted external codec.
* Rust panics (`unwrap()` on `None`, `HashMap` `[]`-indexing of an absent key,
  `Vec` out-of-bounds indexing) are modelled as distinguished `Except` errors
  `panicUnwrap` / `panicIndex`, kept separate from the error-taxonomy values
  (`notFound`, `corruptData`, …) the specification talks about.
* The interactive prompt layer (dialoguer) only produces resolved strings and
  selections; operations take those as plain arguments.
-/

set_option autoImplicit false

namespace RustyClip

/-- One history: `HashMap<String, String>` as an association list. -/
abbrev Hist := List (String × String)

/-- The store data: `HashMap<String, HashMap<String, String>>`. -/
abbrev StoreData := List (String × Hist)

/-- `HashMap` lookup: the first binding of the key, if any. -/
def lookupA {α : Type} (k : String) : List (String × α) → Option α
  | [] => none
  | p :: rest => if p.1 = k then some p.2 else lookupA k rest

/-- `HashMap::insert`: replace the first binding of `k` in place, else append. -/
def insertA {α : Type} (k : String) (v : α) : List (String × α) → List (String × α)
  | [] => [(k, v)]
  | p :: rest => if p.1 = k then (k, v) :: rest else p :: insertA k v rest

/-- `HashMap::remove`: drop the first binding of `k`. -/
def removeA {α : Type} (k : String) : List (String × α) → List (String × α)
  | [] => []
  | p :: rest => if p.1 = k then rest else p :: removeA k rest

/-- The keys of an association list. -/
def keysA {α : Type} (l : List (String × α)) : List String :=
  l.map Prod.fst

/-- A real `HashMap` never holds two bindings of one key. -/
def keysNodup {α : Type} (l : List (String × α)) : Prop :=
  (keysA l).Nodup

instance {α : Type} (l : List (String × α)) : Decidable (keysNodup l) := by
  unfold keysNodup; infer_instance

/-- Well-formedness of the store data: no duplicate history names, and no
duplicate keys inside any history. -/
def storeWF (d : StoreData) : Prop :=
  keysNodup d ∧ ∀ p ∈ d, keysNodup p.2

instance (d : StoreData) : Decidable (storeWF d) := by
  unfold storeWF; infer_instance

/-- Two-level lookup: the value stored for key `k` of history `h`. -/
def lookup2 (d : StoreData) (h k : String) : Option String :=
  match lookupA h d with
  | none => none
  | some m => lookupA k m

/-- The `Clipboard` struct of `main.rs` (lines 12–17). -/
structure Clipboard where
  data : StoreData
  filepath : String
  current : String

/-- `Clipboard::new` (lines 20–26): empty data, `current = "default"`. -/
def Clipboard.new (filepath : String) : Clipboard :=
  { data := [], filepath := filepath, current := "default" }

/-- JSON document tree, the trusted output/input of serde_json. -/
inductive Json where
  | str (s : String)
  | num (n : Int)
  | bool (b : Bool)
  | null
  | arr (items : List Json)
  | obj (fields : List (String × Json))

/-- Serialization of one history, as serde_json sees it: a JSON object of
string values. -/
def histToJson (m : Hist) : Json :=
  Json.obj (m.map fun p => (p.1, Json.str p.2))

/-- Serialization of `self.data` (`serde_json::to_string_pretty(&self.data)`,
line 35): a JSON object of objects of strings. -/
def storeToJson (d : StoreData) : Json :=
  Json.obj (d.map fun p => (p.1, histToJson p.2))

/-- Deserializing the fields of a JSON object into a `HashMap<String,String>`:
every value must be a string; duplicate keys are inserted in order, the later
one overwriting (serde/HashMap behaviour). -/
def fieldsToHist (acc : Hist) : List (String × Json) → Option Hist
  | [] => some acc
  | (k, Json.str s) :: rest => fieldsToHist (insertA k s acc) rest
  | _ => none

/-- Deserializing a JSON value into a `HashMap<String,String>`: it must be an
object of strings, else the shape mismatch is a parse error. -/
def jsonToHist : Json → Option Hist
  | Json.obj fields => fieldsToHist [] fields
  | _ => none

/-- Deserializing the fields of a JSON object into
`HashMap<String, HashMap<String, String>>`. -/
def fieldsToStore (acc : StoreData) : List (String × Json) → Option StoreData
  | [] => some acc
  | (n, jv) :: rest =>
    match jsonToHist jv with
    | none => none
    | some m => fieldsToStore (insertA n m acc) rest

/-- Deserializing a JSON value into the store data
(`serde_json::from_str`, line 30): it must be an object of objects of
strings, else `CorruptData`. -/
def jsonToStore : Json → Option StoreData
  | Json.obj fields => fieldsToStore [] fields
  | _ => none

/-- Error outcomes of the operations.  `notFound`, `corruptData`,
`invalidInput`, `ioFailure` are the specification's error taxonomy;
`panicIndex` and `panicUnwrap` model Rust panics (indexing a `HashMap` or
`Vec` out of bounds, `Option::unwrap` on `None`); `csvUnequalLengths` models
the csv crate's `UnequalLengths` read error. -/
inductive RtError where
  | notFound
  | corruptData
  | invalidInput
  | ioFailure
  | panicIndex
  | panicUnwrap
  | csvUnequalLengths
deriving DecidableEq

/-- System state: the in-memory `Clipboard` plus the content of the file at
`clip.filepath` (`none` = file does not exist). -/
structure SysState where
  clip : Clipboard
  file : Option Json

/-- `save_data` (lines 34–39): write the serialization of `self.data` to the
file; the in-memory struct is untouched. -/
def saveDataOp (s : SysState) : SysState :=
  { s with file := some (storeToJson s.clip.data) }

/-- `load_data` (lines 28–32): read the file (`ioFailure` if absent), parse it
(`corruptData` on shape mismatch), and replace only `self.data`. -/
def loadDataOp (s : SysState) : Except RtError SysState :=
  match s.file with
  | none => Except.error RtError.ioFailure
  | some j =>
    match jsonToStore j with
    | none => Except.error RtError.corruptData
    | some d => Except.ok { s with clip := { s.clip with data := d } }

/-- `self.data.entry(h).or_insert(HashMap::new()).insert(k, v)`
(lines 47–55 and 247–250): create the history if absent, then insert. -/
def insertEntry (h k v : String) (d : StoreData) : StoreData :=
  match lookupA h d with
  | some m => insertA h (insertA k v m) d
  | none => d ++ [(h, [(k, v)])]

/-- The `Save` action (lines 41–59) with the prompted history name and key and
the clipboard contents as arguments: insert, then `save_data`. -/
def saveEntryOp (s : SysState) (h k v : String) : SysState :=
  saveDataOp { s with clip := { s.clip with data := insertEntry h k v s.clip.data } }

/-- The lookup performed by the `Load` action (lines 69–79):
`self.data[&self.current]` panics if the history is absent, then
`.get(&key).unwrap()` panics if the key is absent. -/
def getEntryData (d : StoreData) (h k : String) : Except RtError String :=
  match lookupA h d with
  | none => Except.error RtError.panicIndex
  | some m =>
    match lookupA k m with
    | none => Except.error RtError.panicUnwrap
    | some v => Except.ok v

/-- The mutation performed by the `Delete` action (lines 149–171):
`self.data[&history_name]` (line 157) panics if the history is absent;
otherwise `get_mut(..).unwrap().remove(&key)` drops the key (a no-op when the
key is absent) and `save_data` runs. -/
def deleteOp (s : SysState) (h k : String) : Except RtError SysState :=
  match lookupA h s.clip.data with
  | none => Except.error RtError.panicIndex
  | some m =>
    Except.ok (saveDataOp
      { s with clip := { s.clip with data := insertA h (removeA k m) s.clip.data } })

/-- Substring test at the head of the haystack. -/
def leadsList (needle hay : List Char) : Bool :=
  match needle, hay with
  | [], _ => true
  | _ :: _, [] => false
  | a :: as, b :: bs => a = b && leadsList as bs

/-- Substring occurrence anywhere in the haystack. -/
def occursIn (needle : List Char) : List Char → Bool
  | [] => leadsList needle []
  | b :: bs => leadsList needle (b :: bs) || occursIn needle bs

/-- Rust `str::contains(needle)`: substring containment. -/
def strContains (hay needle : String) : Bool :=
  occursIn needle.data hay.data

/-- `needle` occurs as a contiguous substring of `hay` (propositional form). -/
def SubstrOf (needle hay : String) : Prop :=
  ∃ l r, hay.data = l ++ needle.data ++ r

/-- The match test of `search` (lines 123–126): the term occurs in the history
name, the key, or the value. -/
def entryHit (term n k v : String) : Bool :=
  strContains n term || strContains k term || strContains v term

/-- The `Search` action (lines 108–147) with the prompted term as argument.
The dialoguer validator (lines 111–117) rejects an empty term
("Search term cannot be empty."), so an empty term never reaches the matching
loop; the loop inserts the history's **whole** cloned inner map into
`matched_data` as soon as one of its entries matches, then breaks. -/
def searchOp (d : StoreData) (term : String) : Except RtError StoreData :=
  if term = "" then Except.error RtError.invalidInput
  else Except.ok (d.filter fun p => p.2.any fun q => entryHit term p.1 q.1 q.2)

/-- CSV export (lines 191–204): one header-less 3-field record per
(history, key, value) triple, in map iteration order. -/
def exportCSV (d : StoreData) : List (List String) :=
  (d.map fun p => p.2.map fun q => [p.1, q.1, q.2]).flatten

/-- `record[0].clone()`, `record[1].clone()`, `record[2].clone()`
(lines 244–246): extracting the first three fields of a record panics
(out-of-bounds `Vec` indexing) when the record has fewer than three fields;
fields beyond the third are ignored. -/
def readRecord3 (r : List String) : Except RtError (String × String × String) :=
  match r with
  | a :: b :: c :: _ => Except.ok (a, b, c)
  | _ => Except.error RtError.panicIndex

/-- Reading the data rows of a CSV file whose first record had `w` fields
(lines 242–251).  The csv crate (default `flexible = false`) errors with
`UnequalLengths` on a record whose field count differs from the first
record's; a record that passes that check is unpacked by `readRecord3`. -/
def readRecords (w : Nat) : List (List String) → Except RtError (List (String × String × String))
  | [] => Except.ok []
  | r :: rest =>
    if r.length = w then
      match readRecord3 r with
      | Except.error e => Except.error e
      | Except.ok t => (readRecords w rest).map (fun ts => t :: ts)
    else Except.error RtError.csvUnequalLengths

/-- CSV import parsing (lines 239–251): `csv::Reader::from_reader` has
`has_headers = true` by default, so the **first record is consumed as the
header** (fixing the expected field count) and only the remaining records are
deserialized. -/
def importCSVRows (rows : List (List String)) : Except RtError (List (String × String × String)) :=
  match rows with
  | [] => Except.ok []
  | header :: rest => readRecords header.length rest

/-- One step of the CSV accumulation loop (lines 247–250):
`imported_data.entry(h).or_insert(HashMap::new()).insert(k, v)`. -/
def insertTriple (d : StoreData) (t : String × String × String) : StoreData :=
  insertEntry t.1 t.2.1 t.2.2 d

/-- The CSV accumulation loop: fold the parsed records, in file row order,
into a fresh map. -/
def accumulateTriples (ts : List (String × String × String)) : StoreData :=
  ts.foldl insertTriple []

/-- `merge_data` for one imported history: insert every imported (key, value)
into the existing inner map, imported values overwriting (lines 274–276). -/
def mergeHist (base entries : Hist) : Hist :=
  entries.foldl (fun acc p => insertA p.1 p.2 acc) base

/-- One iteration of the `merge_data` loop (lines 268–277):
`self.data.entry(name).or_insert(HashMap::new())`, then insert every entry of
the imported history into it. -/
def mergeStep (acc : StoreData) (p : String × Hist) : StoreData :=
  match lookupA p.1 acc with
  | some cur => insertA p.1 (mergeHist cur p.2) acc
  | none => acc ++ [(p.1, mergeHist [] p.2)]

/-- `merge_data` (lines 264–279): fold the imported histories into the store. -/
def mergeData (base imported : StoreData) : StoreData :=
  imported.foldl mergeStep base

/-- The CSV branch of the `Import` action (lines 234–254): parse the rows
(aborting on any error, leaving the state untouched), accumulate, merge.
Note: `import` calls no `save_data`; the file is not written. -/
def importCSVOp (s : SysState) (rows : List (List String)) : Except RtError SysState :=
  match importCSVRows rows with
  | Except.error e => Except.error e
  | Except.ok ts =>
    Except.ok { s with clip := { s.clip with data := mergeData s.clip.data (accumulateTriples ts) } }

/-- Startup (lines 282–291): if the file exists, `Clipboard::new` then
`load_data`, else just `Clipboard::new`. -/
def startup (file : Option Json) : Except RtError SysState :=
  match file with
  | none => Except.ok { clip := Clipboard.new "clipboard.json", file := none }
  | some j => loadDataOp { clip := Clipboard.new "clipboard.json", file := some j }

/-- Flattened (history, key, value) triples of a store. -/
def flattenStore (d : StoreData) : List (String × String × String) :=
  (d.map fun p => p.2.map fun q => (p.1, q.1, q.2)).flatten

/-- Last-wins lookup of `(h, k)` across a sequence of import triples: the
value of the later matching record wins. -/
def lastVal (h k : String) : List (String × String × String) → Option String
  | [] => none
  | t :: ts =>
    match lastVal h k ts with
    | some v => some v
    | none => if t.1 = h ∧ t.2.1 = k then some t.2.2 else none

/-- Left-biased choice on `Option`. -/
def oor {α : Type} : Option α → Option α → Option α
  | some v, _ => some v
  | none, b => b

/-- Last-wins lookup of `k` across the bindings of one (possibly
duplicate-keyed) association list. -/
def lastValH (k : String) : Hist → Option String
  | [] => none
  | p :: rest => oor (lastValH k rest) (if p.1 = k then some p.2 else none)

/-- Last-wins lookup of `(h, k)` across the (possibly duplicate-named)
histories of an imported dataset. -/
def lastValS (h k : String) : StoreData → Option String
  | [] => none
  | p :: rest => oor (lastValS h k rest) (if p.1 = h then lastValH k p.2 else none)

/-! ## Basic association-list lemmas -/

theorem oor_some {α : Type} (v : α) (b : Option α) : oor (some v) b = some v := rfl

theorem oor_none {α : Type} (b : Option α) : oor (none : Option α) b = b := rfl

theorem oor_none_right {α : Type} (a : Option α) : oor a none = a := by
  cases a <;> rfl

theorem oor_assoc {α : Type} (a b c : Option α) : oor (oor a b) c = oor a (oor b c) := by
  cases a <;> rfl

theorem lookupA_insertA {α : Type} (k' k : String) (v : α) (l : List (String × α)) :
    lookupA k (insertA k' v l) = if k' = k then some v else lookupA k l := by
  induction l with
  | nil => by_cases h : k' = k <;> simp [insertA, lookupA, h]
  | cons p rest ih =>
    by_cases hp : p.1 = k'
    · simp only [insertA, if_pos hp, lookupA]
      by_cases h : k' = k
      · rw [if_pos h, if_pos h]
      · rw [if_neg h, if_neg h, if_neg (fun hh => h (hp.symm.trans hh))]
    · simp only [insertA, if_neg hp, lookupA, ih]
      by_cases hk : p.1 = k
      · rw [if_pos hk, if_neg (fun hh => hp (hk.trans hh.symm)), if_pos hk]
      · rw [if_neg hk, if_neg hk]

theorem lookupA_append {α : Type} (k : String) (l1 l2 : List (String × α)) :
    lookupA k (l1 ++ l2) = oor (lookupA k l1) (lookupA k l2) := by
  induction l1 with
  | nil => simp [lookupA, oor]
  | cons p rest ih =>
    by_cases hp : p.1 = k <;> simp [lookupA, hp, ih, oor]

theorem lookupA_eq_none_iff {α : Type} (k : String) (l : List (String × α)) :
    lookupA k l = none ↔ k ∉ keysA l := by
  induction l with
  | nil => simp [lookupA, keysA]
  | cons p rest ih =>
    by_cases hp : p.1 = k
    · simp [lookupA, keysA, hp, ih]
    · simp [lookupA, keysA, hp, ih]
      tauto

theorem mem_of_lookupA {α : Type} {k : String} {v : α} :
    ∀ {l : List (String × α)}, lookupA k l = some v → (k, v) ∈ l
  | (a, b) :: rest, h => by
    by_cases hp : a = k
    · simp only [lookupA, if_pos hp] at h
      injection h with h
      subst hp
      subst h
      exact List.mem_cons_self _ _
    · simp only [lookupA, if_neg hp] at h
      exact List.mem_cons_of_mem _ (mem_of_lookupA h)

theorem insertA_of_lookupA_none {α : Type} {k : String} (v : α) {l : List (String × α)}
    (h : lookupA k l = none) : insertA k v l = l ++ [(k, v)] := by
  induction l with
  | nil => rfl
  | cons p rest ih =>
    simp only [lookupA] at h
    by_cases hp : p.1 = k
    · rw [if_pos hp] at h
      cases h
    · rw [if_neg hp] at h
      simp only [insertA, if_neg hp, ih h, List.cons_append]

theorem insertA_of_lookupA_some {α : Type} {k : String} {m : α} :
    ∀ {l : List (String × α)}, lookupA k l = some m → insertA k m l = l
  | (a, b) :: rest, h => by
    by_cases hp : a = k
    · subst hp
      simp only [lookupA, if_pos rfl] at h
      injection h with h
      subst h
      simp [insertA]
    · simp only [lookupA, if_neg hp] at h
      simp only [insertA, if_neg hp, insertA_of_lookupA_some h]

theorem removeA_of_lookupA_none {α : Type} {k : String} :
    ∀ {l : List (String × α)}, lookupA k l = none → removeA k l = l
  | [], _ => rfl
  | p :: rest, h => by
    simp only [lookupA] at h
    by_cases hp : p.1 = k
    · rw [if_pos hp] at h; cases h
    · rw [if_neg hp] at h
      simp only [removeA, if_neg hp, removeA_of_lookupA_none h]

theorem keysA_insertA_of_some {α : Type} {k : String} {w : α} (v : α) :
    ∀ {l : List (String × α)}, lookupA k l = some w → keysA (insertA k v l) = keysA l
  | (a, b) :: rest, h => by
    by_cases hp : a = k
    · simp [insertA, keysA, hp]
    · simp only [lookupA, if_neg hp] at h
      simp [insertA, keysA, hp] at *
      exact keysA_insertA_of_some v h

theorem keysNodup_insertA {α : Type} (k : String) (v : α) {l : List (String × α)}
    (h : keysNodup l) : keysNodup (insertA k v l) := by
  cases hl : lookupA k l with
  | none =>
    rw [insertA_of_lookupA_none v hl]
    have hk : k ∉ keysA l := (lookupA_eq_none_iff k l).mp hl
    simp only [keysNodup, keysA, List.map_append] at *
    simp [List.nodup_append, h, hk]
  | some w =>
    unfold keysNodup
    rw [keysA_insertA_of_some v hl]
    exact h

theorem mem_insertA {α : Type} {p : String × α} (k : String) (v : α) :
    ∀ {l : List (String × α)}, p ∈ insertA k v l → p = (k, v) ∨ p ∈ l
  | [], h => by
    simp [insertA] at h
    exact Or.inl h
  | q :: rest, h => by
    by_cases hq : q.1 = k
    · simp only [insertA, if_pos hq] at h
      rcases List.mem_cons.mp h with h | h
      · exact Or.inl h
      · exact Or.inr (List.mem_cons_of_mem _ h)
    · simp only [insertA, if_neg hq] at h
      rcases List.mem_cons.mp h with h | h
      · exact Or.inr (h ▸ List.mem_cons_self _ _)
      · rcases mem_insertA k v h with h | h
        · exact Or.inl h
        · exact Or.inr (List.mem_cons_of_mem _ h)

theorem keysA_removeA_sublist {α : Type} (k : String) :
    ∀ (l : List (String × α)), List.Sublist (keysA (removeA k l)) (keysA l)
  | [] => List.Sublist.refl _
  | p :: rest => by
    by_cases hp : p.1 = k
    · simp only [removeA, if_pos hp, keysA, List.map]
      exact List.sublist_cons_of_sublist _ (List.Sublist.refl _)
    · simp only [removeA, if_neg hp, keysA, List.map]
      exact List.Sublist.cons₂ _ (keysA_removeA_sublist k rest)

theorem keysNodup_removeA {α : Type} (k : String) {l : List (String × α)}
    (h : keysNodup l) : keysNodup (removeA k l) :=
  (keysA_removeA_sublist k l).nodup h

theorem mem_removeA {α : Type} {p : String × α} (k : String) :
    ∀ {l : List (String × α)}, p ∈ removeA k l → p ∈ l
  | q :: rest, h => by
    by_cases hq : q.1 = k
    · simp only [removeA, if_pos hq] at h
      exact List.mem_cons_of_mem _ h
    · simp only [removeA, if_neg hq] at h
      rcases List.mem_cons.mp h with h | h
      · exact h ▸ List.mem_cons_self _ _
      · exact List.mem_cons_of_mem _ (mem_removeA k h)

theorem storeWF_insertEntry {h k v : String} {d : StoreData}
    (hwf : storeWF d) : storeWF (insertEntry h k v d) := by
  obtain ⟨hnd, hin⟩ := hwf
  cases hl : lookupA h d with
  | some m =>
    have hm : keysNodup m := hin _ (mem_of_lookupA hl)
    refine ⟨?_, ?_⟩
    · simp only [insertEntry, hl]
      exact keysNodup_insertA _ _ hnd
    · intro p hp
      simp only [insertEntry, hl] at hp
      rcases mem_insertA _ _ hp with hp | hp
      · rw [hp]
        exact keysNodup_insertA _ _ hm
      · exact hin _ hp
  | none =>
    refine ⟨?_, ?_⟩
    · simp only [insertEntry, hl]
      have hk : h ∉ keysA d := (lookupA_eq_none_iff h d).mp hl
      simp only [keysNodup, keysA, List.map_append] at *
      simp [List.nodup_append, hnd, hk]
    · intro p hp
      simp only [insertEntry, hl, List.mem_append] at hp
      rcases hp with hp | hp
      · exact hin _ hp
      · simp at hp
        rw [hp]
        simp [keysNodup, keysA]

theorem storeWF_nil : storeWF [] := by
  constructor
  · exact List.nodup_nil
  · intro p hp
    cases hp

theorem storeWF_foldl_insertTriple {d : StoreData} (hwf : storeWF d) :
    ∀ (ts : List (String × String × String)), storeWF (ts.foldl insertTriple d)
  | [] => hwf
  | t :: ts => by
    simp only [List.foldl_cons]
    exact storeWF_foldl_insertTriple (storeWF_insertEntry hwf) ts

theorem storeWF_accumulateTriples (ts : List (String × String × String)) :
    storeWF (accumulateTriples ts) :=
  storeWF_foldl_insertTriple storeWF_nil ts

/-! ## Lookup semantics of insertion and merging -/

theorem lookup2_of_none {d : StoreData} {h : String} (k : String)
    (hl : lookupA h d = none) : lookup2 d h k = none := by
  simp [lookup2, hl]

theorem lookup2_of_some {d : StoreData} {h : String} {m : Hist} (k : String)
    (hl : lookupA h d = some m) : lookup2 d h k = lookupA k m := by
  simp [lookup2, hl]

theorem lookup2_insertA_store (h' h k : String) (m : Hist) (d : StoreData) :
    lookup2 (insertA h' m d) h k = if h' = h then lookupA k m else lookup2 d h k := by
  by_cases hp : h' = h
  · rw [if_pos hp, lookup2_of_some k (by rw [lookupA_insertA, if_pos hp])]
  · rw [if_neg hp]
    cases hb : lookupA h d with
    | none =>
      rw [lookup2_of_none k (by rw [lookupA_insertA, if_neg hp]; exact hb),
        lookup2_of_none k hb]
    | some mm =>
      rw [lookup2_of_some k (by rw [lookupA_insertA, if_neg hp]; exact hb),
        lookup2_of_some k hb]

theorem lookup2_insertEntry (h k v h' k' : String) (d : StoreData) :
    lookup2 (insertEntry h k v d) h' k' =
      if h = h' ∧ k = k' then some v else lookup2 d h' k' := by
  cases hl : lookupA h d with
  | some m =>
    rw [show insertEntry h k v d = insertA h (insertA k v m) d by
        simp [insertEntry, hl],
      lookup2_insertA_store]
    by_cases hh : h = h'
    · rw [if_pos hh, lookupA_insertA]
      by_cases hk : k = k'
      · rw [if_pos hk, if_pos ⟨hh, hk⟩]
      · rw [if_neg hk, if_neg (fun hc => hk hc.2), lookup2_of_some k' (hh ▸ hl)]
    · rw [if_neg hh, if_neg (fun hc => hh hc.1)]
  | none =>
    rw [show insertEntry h k v d = d ++ [(h, [(k, v)])] by simp [insertEntry, hl]]
    by_cases hh : h = h'
    · subst hh
      have hfind : lookupA h (d ++ [(h, [(k, v)])]) = some [(k, v)] := by
        rw [lookupA_append, hl, oor_none]
        simp [lookupA]
      rw [lookup2_of_some k' hfind, lookup2_of_none k' hl]
      by_cases hk : k = k'
      · simp [lookupA, hk]
      · simp [lookupA, hk]
    · have hend : lookupA h' [(h, [(k, v)])] = none := by
        simp [lookupA, hh]
      rw [if_neg (fun hc => hh hc.1)]
      cases hb : lookupA h' d with
      | none =>
        have : lookupA h' (d ++ [(h, [(k, v)])]) = none := by
          rw [lookupA_append, hb, oor_none, hend]
        rw [lookup2_of_none k' this, lookup2_of_none k' hb]
      | some m' =>
        have : lookupA h' (d ++ [(h, [(k, v)])]) = some m' := by
          rw [lookupA_append, hb, oor_some]
        rw [lookup2_of_some k' this, lookup2_of_some k' hb]

theorem lookup2_foldl_insertTriple (h k : String) :
    ∀ (ts : List (String × String × String)) (d0 : StoreData),
      lookup2 (ts.foldl insertTriple d0) h k = oor (lastVal h k ts) (lookup2 d0 h k)
  | [], d0 => by simp [lastVal, oor]
  | t :: ts, d0 => by
    rw [List.foldl_cons, lookup2_foldl_insertTriple h k ts,
      show insertTriple d0 t = insertEntry t.1 t.2.1 t.2.2 d0 from rfl,
      lookup2_insertEntry]
    simp only [lastVal]
    cases hv : lastVal h k ts with
    | some v => rfl
    | none =>
      by_cases hc : t.1 = h ∧ t.2.1 = k
      · rw [if_pos hc, if_pos hc]
        rfl
      · rw [if_neg hc, if_neg hc]

theorem lookup2_accumulateTriples (h k : String) (ts : List (String × String × String)) :
    lookup2 (accumulateTriples ts) h k = lastVal h k ts := by
  rw [accumulateTriples, lookup2_foldl_insertTriple]
  rw [lookup2_of_none k (show lookupA h [] = none from rfl), oor_none_right]

theorem lookupA_mergeHist (k : String) :
    ∀ (entries base : Hist),
      lookupA k (mergeHist base entries) = oor (lastValH k entries) (lookupA k base)
  | [], base => by simp [mergeHist, lastValH, oor]
  | p :: rest, base => by
    rw [show mergeHist base (p :: rest) = mergeHist (insertA p.1 p.2 base) rest from rfl,
      lookupA_mergeHist k rest (insertA p.1 p.2 base)]
    simp only [lastValH]
    rw [oor_assoc]
    congr 1
    rw [lookupA_insertA]
    by_cases hp : p.1 = k
    · rw [if_pos hp, if_pos hp, oor_some]
    · rw [if_neg hp, if_neg hp, oor_none]

theorem lookup2_mergeStep (h k : String) (base : StoreData) (p : String × Hist) :
    lookup2 (mergeStep base p) h k =
      oor (if p.1 = h then lastValH k p.2 else none) (lookup2 base h k) := by
  cases hl : lookupA p.1 base with
  | some cur =>
    rw [show mergeStep base p = insertA p.1 (mergeHist cur p.2) base by
        simp [mergeStep, hl],
      lookup2_insertA_store]
    by_cases hp : p.1 = h
    · rw [if_pos hp, if_pos hp, lookupA_mergeHist, lookup2_of_some k (hp ▸ hl)]
    · rw [if_neg hp, if_neg hp, oor_none]
  | none =>
    rw [show mergeStep base p = base ++ [(p.1, mergeHist [] p.2)] by
        simp [mergeStep, hl]]
    by_cases hp : p.1 = h
    · have hl' : lookupA h base = none := by rw [← hp]; exact hl
      have hfind : lookupA h (base ++ [(p.1, mergeHist [] p.2)]) = some (mergeHist [] p.2) := by
        rw [lookupA_append, hl', oor_none]
        simp [lookupA, hp]
      rw [lookup2_of_some k hfind, lookup2_of_none k hl', if_pos hp,
        lookupA_mergeHist, show lookupA k ([] : Hist) = none from rfl,
        oor_none_right]
    · have hend : lookupA h [(p.1, mergeHist [] p.2)] = none := by
        simp [lookupA, hp]
      rw [if_neg hp, oor_none]
      cases hb : lookupA h base with
      | none =>
        have : lookupA h (base ++ [(p.1, mergeHist [] p.2)]) = none := by
          rw [lookupA_append, hb, oor_none, hend]
        rw [lookup2_of_none k this, lookup2_of_none k hb]
      | some m' =>
        have : lookupA h (base ++ [(p.1, mergeHist [] p.2)]) = some m' := by
          rw [lookupA_append, hb, oor_some]
        rw [lookup2_of_some k this, lookup2_of_some k hb]

theorem lookup2_mergeData (h k : String) :
    ∀ (imported base : StoreData),
      lookup2 (mergeData base imported) h k = oor (lastValS h k imported) (lookup2 base h k)
  | [], base => by simp [mergeData, lastValS, oor]
  | p :: rest, base => by
    rw [show mergeData base (p :: rest) = mergeData (mergeStep base p) rest from rfl,
      lookup2_mergeData h k rest (mergeStep base p), lookup2_mergeStep]
    simp only [lastValS]
    rw [oor_assoc]

theorem lastValH_of_keysNodup (k : String) :
    ∀ {m : Hist}, keysNodup m → lastValH k m = lookupA k m
  | [], _ => rfl
  | p :: rest, hnd => by
    have htail : keysNodup rest := by
      simp only [keysNodup, keysA, List.map, List.nodup_cons] at hnd
      exact hnd.2
    have hhead : p.1 ∉ keysA rest := by
      simp only [keysNodup, keysA, List.map, List.nodup_cons] at hnd
      exact hnd.1
    simp only [lastValH, lookupA, lastValH_of_keysNodup k htail]
    by_cases hp : p.1 = k
    · subst hp
      rw [(lookupA_eq_none_iff p.1 rest).mpr hhead]
      simp [oor]
    · rw [if_neg hp, if_neg hp, oor_none_right]

theorem lastValS_of_storeWF (h k : String) :
    ∀ {d : StoreData}, storeWF d → lastValS h k d = lookup2 d h k
  | [], _ => rfl
  | p :: rest, hwf => by
    have hnd := hwf.1
    have hm : keysNodup p.2 := hwf.2 _ (List.mem_cons_self _ _)
    have htail : storeWF rest := by
      refine ⟨?_, fun q hq => hwf.2 _ (List.mem_cons_of_mem _ hq)⟩
      simp only [keysNodup, keysA, List.map, List.nodup_cons] at hnd
      exact hnd.2
    have hhead : p.1 ∉ keysA rest := by
      simp only [keysNodup, keysA, List.map, List.nodup_cons] at hnd
      exact hnd.1
    simp only [lastValS, lastValS_of_storeWF h k htail]
    by_cases hp : p.1 = h
    · subst hp
      have : lookupA p.1 rest = none := (lookupA_eq_none_iff p.1 rest).mpr hhead
      simp only [lookup2, lookupA, if_pos rfl, this]
      simp [oor, lastValH_of_keysNodup k hm]
    · simp only [lookup2, lookupA, if_neg hp, if_neg hp, oor_none_right]

/-- The combined merge semantics: merging accumulated import triples into any
base store gives, at every `(h, k)`, the value of the last matching import
record, else the base's value. -/
theorem lookup2_merge_accumulate (base : StoreData) (ts : List (String × String × String))
    (h k : String) :
    lookup2 (mergeData base (accumulateTriples ts)) h k =
      oor (lastVal h k ts) (lookup2 base h k) := by
  rw [lookup2_mergeData,
    lastValS_of_storeWF h k (storeWF_accumulateTriples ts),
    lookup2_accumulateTriples]

/-! ## Serialization round trip -/

theorem foldl_insertA_of_disjoint {α : Type} :
    ∀ {m : List (String × α)} {acc : List (String × α)},
      keysNodup m → (∀ x ∈ keysA m, x ∉ keysA acc) →
      m.foldl (fun a p => insertA p.1 p.2 a) acc = acc ++ m
  | [], acc, _, _ => by simp
  | p :: rest, acc, hnd, hdisj => by
    have hp : p.1 ∉ keysA acc := hdisj p.1 (by simp [keysA])
    have hins : insertA p.1 p.2 acc = acc ++ [p] :=
      insertA_of_lookupA_none p.2 ((lookupA_eq_none_iff _ _).mpr hp)
    have hnd' : keysNodup rest := by
      simp only [keysNodup, keysA, List.map, List.nodup_cons] at hnd
      exact hnd.2
    have hhead : p.1 ∉ keysA rest := by
      simp only [keysNodup, keysA, List.map, List.nodup_cons] at hnd
      exact hnd.1
    have hdisj' : ∀ x ∈ keysA rest, x ∉ keysA (acc ++ [p]) := by
      intro x hx hmem
      rw [keysA, List.map_append] at hmem
      rcases List.mem_append.mp hmem with hxa | hxp
      · exact hdisj x (List.mem_cons_of_mem _ hx) hxa
      · have hxp' : x = p.1 := by simpa using hxp
        exact hhead (hxp' ▸ hx)
    rw [List.foldl_cons, hins, foldl_insertA_of_disjoint hnd' hdisj']
    simp

theorem fieldsToHist_map :
    ∀ (m : Hist) (acc : Hist),
      fieldsToHist acc (m.map fun p => (p.1, Json.str p.2)) =
        some (m.foldl (fun a p => insertA p.1 p.2 a) acc)
  | [], acc => rfl
  | p :: rest, acc => by
    rw [List.map_cons, List.foldl_cons]
    exact fieldsToHist_map rest (insertA p.1 p.2 acc)

theorem jsonToHist_histToJson {m : Hist} (hnd : keysNodup m) :
    jsonToHist (histToJson m) = some m := by
  show fieldsToHist [] (m.map fun p => (p.1, Json.str p.2)) = some m
  rw [fieldsToHist_map, foldl_insertA_of_disjoint hnd (by intro x hx; simp [keysA])]
  simp

theorem fieldsToStore_map :
    ∀ {d : StoreData}, (∀ p ∈ d, keysNodup p.2) → ∀ (acc : StoreData),
      fieldsToStore acc (d.map fun p => (p.1, histToJson p.2)) =
        some (d.foldl (fun a p => insertA p.1 p.2 a) acc)
  | [], _, acc => rfl
  | p :: rest, hin, acc => by
    have hj := jsonToHist_histToJson (hin p (List.mem_cons_self _ _))
    rw [List.map_cons, List.foldl_cons]
    simp only [fieldsToStore, hj]
    exact fieldsToStore_map (fun q hq => hin q (List.mem_cons_of_mem _ hq)) (insertA p.1 p.2 acc)

/-- Round trip of the persistence codec on well-formed store data: serializing
`data` and parsing the result gives back exactly `data`. -/
theorem jsonToStore_storeToJson {d : StoreData} (hwf : storeWF d) :
    jsonToStore (storeToJson d) = some d := by
  show fieldsToStore [] (d.map fun p => (p.1, histToJson p.2)) = some d
  rw [fieldsToStore_map hwf.2, foldl_insertA_of_disjoint hwf.1 (by intro x hx; simp [keysA])]
  simp

/-! ## Substring matching -/

theorem leadsList_iff :
    ∀ (needle hay : List Char), leadsList needle hay = true ↔ ∃ r, hay = needle ++ r
  | [], hay => by simp [leadsList]
  | _ :: _, [] => by simp [leadsList]
  | a :: as, b :: bs => by
    simp only [leadsList, Bool.and_eq_true, decide_eq_true_eq]
    constructor
    · rintro ⟨hab, htail⟩
      obtain ⟨r, hr⟩ := (leadsList_iff as bs).mp htail
      exact ⟨r, by rw [hab, hr, List.cons_append]⟩
    · rintro ⟨r, hr⟩
      rw [List.cons_append] at hr
      injection hr with h1 h2
      exact ⟨h1.symm, (leadsList_iff as bs).mpr ⟨r, h2⟩⟩

theorem occursIn_iff :
    ∀ (needle hay : List Char), occursIn needle hay = true ↔ ∃ l r, hay = l ++ needle ++ r
  | needle, [] => by
    rw [show occursIn needle [] = leadsList needle [] from rfl, leadsList_iff]
    constructor
    · rintro ⟨r, hr⟩
      exact ⟨[], r, by simpa using hr⟩
    · rintro ⟨l, r, hr⟩
      obtain ⟨h1, h2⟩ := List.append_eq_nil.mp hr.symm
      obtain ⟨h3, h4⟩ := List.append_eq_nil.mp h1
      exact ⟨[], by rw [h4]; rfl⟩
  | needle, b :: bs => by
    rw [show occursIn needle (b :: bs) =
      (leadsList needle (b :: bs) || occursIn needle bs) from rfl]
    simp only [Bool.or_eq_true, leadsList_iff, occursIn_iff needle bs]
    constructor
    · rintro (⟨r, hr⟩ | ⟨l, r, hr⟩)
      · exact ⟨[], r, by simpa using hr⟩
      · exact ⟨b :: l, r, by rw [hr, List.cons_append, List.cons_append]⟩
    · rintro ⟨l, r, hr⟩
      cases l with
      | nil => exact Or.inl ⟨r, by simpa using hr⟩
      | cons x l' =>
        rw [List.cons_append, List.cons_append] at hr
        injection hr with h1 h2
        exact Or.inr ⟨l', r, h2⟩

theorem strContains_iff (hay needle : String) :
    strContains hay needle = true ↔ SubstrOf needle hay :=
  occursIn_iff needle.data hay.data

theorem entryHit_iff (term n k v : String) :
    entryHit term n k v = true ↔ SubstrOf term n ∨ SubstrOf term k ∨ SubstrOf term v := by
  simp only [entryHit, Bool.or_eq_true, strContains_iff]
  exact or_assoc

/-! ## State-level helpers -/

theorem storeWF_insertA_store {d : StoreData} {h : String} {m : Hist}
    (hwf : storeWF d) (hm : keysNodup m) : storeWF (insertA h m d) := by
  refine ⟨keysNodup_insertA _ _ hwf.1, fun p hp => ?_⟩
  rcases mem_insertA _ _ hp with hp | hp
  · rw [hp]
    exact hm
  · exact hwf.2 _ hp

/-- Writing `save_data` and then `load_data` on the resulting file restores the
very same system state, for well-formed data. -/
theorem loadDataOp_saveDataOp {s : SysState} (hwf : storeWF s.clip.data) :
    loadDataOp (saveDataOp s) = Except.ok (saveDataOp s) := by
  show (match jsonToStore (storeToJson s.clip.data) with
    | none => Except.error RtError.corruptData
    | some d => Except.ok { saveDataOp s with clip := { (saveDataOp s).clip with data := d } })
    = Except.ok (saveDataOp s)
  rw [jsonToStore_storeToJson hwf]
  rfl

/-- Extraction of the first three fields of a CSV record
(`record[0]`, `record[1]`, `record[2]`). -/
def firstThreeFields (r : List String) : String × String × String :=
  match r with
  | a :: b :: c :: _ => (a, b, c)
  | _ => ("", "", "")

theorem readRecord3_of_ge {r : List String} (h3 : 3 ≤ r.length) :
    readRecord3 r = Except.ok (firstThreeFields r) := by
  cases r with
  | nil => simp at h3
  | cons a r1 =>
    cases r1 with
    | nil => simp at h3
    | cons b r2 =>
      cases r2 with
      | nil =>
        simp only [List.length_cons, List.length_nil] at h3
        omega
      | cons c r3 => rfl

theorem readRecord3_of_lt {r : List String} (h3 : r.length < 3) :
    readRecord3 r = Except.error RtError.panicIndex := by
  cases r with
  | nil => rfl
  | cons a r1 =>
    cases r1 with
    | nil => rfl
    | cons b r2 =>
      cases r2 with
      | nil => rfl
      | cons c r3 =>
        simp only [List.length_cons] at h3
        omega

theorem readRecords_ok (w : Nat) (hw : 3 ≤ w) :
    ∀ (rows : List (List String)), (∀ r ∈ rows, r.length = w) →
      readRecords w rows = Except.ok (rows.map firstThreeFields)
  | [], _ => rfl
  | r :: rest, hlen => by
    have hr : r.length = w := hlen r (List.mem_cons_self _ _)
    have hr3 : 3 ≤ r.length := hr ▸ hw
    have ih := readRecords_ok w hw rest (fun q hq => hlen q (List.mem_cons_of_mem _ hq))
    rw [readRecords, if_pos hr, readRecord3_of_ge hr3, ih]
    rfl

theorem readRecords_panic (w : Nat) (hw : w < 3) :
    ∀ (rows : List (List String)), (∀ r ∈ rows, r.length = w) → rows ≠ [] →
      readRecords w rows = Except.error RtError.panicIndex
  | r :: rest, hlen, _ => by
    have hr : r.length = w := hlen r (List.mem_cons_self _ _)
    have hr3 : r.length < 3 := hr ▸ hw
    rw [readRecords, if_pos hr, readRecord3_of_lt hr3]

theorem readRecords_unequal (w : Nat) (hw : 3 ≤ w) :
    ∀ (rows : List (List String)), (∃ r ∈ rows, r.length ≠ w) →
      readRecords w rows = Except.error RtError.csvUnequalLengths
  | r :: rest, hbad => by
    by_cases hr : r.length = w
    · have hrest : ∃ q ∈ rest, q.length ≠ w := by
        obtain ⟨q, hq, hqw⟩ := hbad
        rcases List.mem_cons.mp hq with hq | hq
        · exact absurd (hq ▸ hr) hqw
        · exact ⟨q, hq, hqw⟩
      have hr3 : 3 ≤ r.length := hr ▸ hw
      rw [readRecords, if_pos hr, readRecord3_of_ge hr3,
        readRecords_unequal w hw rest hrest]
      rfl
    · rw [readRecords, if_neg hr]

/-- Number of fields of a JSON object (a discriminator used to compare
concrete documents). -/
def jsonFieldCount : Json → Nat
  | Json.obj fields => fields.length
  | _ => 0

/-! ## Claims -/

/-- A store whose history "h" holds one matching and one non-matching entry
for the term "hit". -/
def c1Store : StoreData := [("h", [("a", "hit"), ("b", "miss")])]

/-- C1 counterexample: searching `c1Store` for "hit" returns the whole history
"h" including the entry ("b", "miss"), although "hit" is a substring of
neither the history name "h", the key "b", nor the value "miss" — so entries
of a history ARE auto-included once a sibling entry matches, contradicting
the claim's entry-level filtering. -/
theorem c1_counterexample :
    searchOp c1Store "hit" = Except.ok [("h", [("a", "hit"), ("b", "miss")])] ∧
    strContains "h" "hit" = false ∧
    strContains "b" "hit" = false ∧
    strContains "miss" "hit" = false :=
  ⟨rfl, rfl, rfl, rfl⟩

/-- C1 (corrected): for a non-empty term, `search` returns — grouped by
history name — the **entire** entry map of every history in which at least
one entry matches (the term being a substring of the history name, a key, or
a value); a history appears in the result exactly when one of its entries
matches, and it appears with all of its entries. -/
theorem c1_search_returns_whole_history (d : StoreData) (term : String) (r : StoreData)
    (n : String) (m : Hist) (ht : term ≠ "") (hr : searchOp d term = Except.ok r) :
    (n, m) ∈ r ↔
      (n, m) ∈ d ∧ ∃ e ∈ m, SubstrOf term n ∨ SubstrOf term e.1 ∨ SubstrOf term e.2 := by
  rw [searchOp, if_neg ht] at hr
  injection hr with hr
  subst hr
  simp only [List.mem_filter, List.any_eq_true, entryHit_iff]

/-- C1 witness: the corrected statement evaluated on `c1Store` with term
"hit" and the history "h". -/
theorem c1_search_returns_whole_history_witness :
    ("h", [("a", "hit"), ("b", "miss")]) ∈ c1Store ↔
      ("h", [("a", "hit"), ("b", "miss")]) ∈ c1Store ∧
        ∃ e ∈ [("a", "hit"), ("b", "miss")],
          SubstrOf "hit" "h" ∨ SubstrOf "hit" e.1 ∨ SubstrOf "hit" e.2 :=
  c1_search_returns_whole_history c1Store "hit" c1Store "h"
    [("a", "hit"), ("b", "miss")] (by decide) rfl

/-- A store with two entries in one history, for the CSV round trip. -/
def c2Store : StoreData := [("h", [("k1", "v1"), ("k2", "v2")])]

/-- The state that actually results from importing the exported CSV of
`c2Store` into an empty store: only the second triple survives. -/
def c2Result : SysState := { clip := { data := [("h", [("k2", "v2")])], filepath := "clipboard.json", current := "default" }, file := none }

/-- C2 (code bug): export writes one header-less 3-field record per triple,
but the CSV import reader consumes the **first** record as a header, so
importing the exported file into an empty store drops the first exported
triple: only ("h","k2","v2") survives of the two exported triples. -/
theorem c2_csv_roundtrip_drops_first_record :
    exportCSV c2Store = [["h", "k1", "v1"], ["h", "k2", "v2"]] ∧
    importCSVRows (exportCSV c2Store) = Except.ok [("h", "k2", "v2")] ∧
    importCSVOp { clip := Clipboard.new "clipboard.json", file := none } (exportCSV c2Store) =
      Except.ok c2Result ∧
    flattenStore [("h", [("k2", "v2")])] = [("h", "k2", "v2")] ∧
    flattenStore c2Store = [("h", "k1", "v1"), ("h", "k2", "v2")] :=
  ⟨rfl, rfl, rfl, rfl, rfl⟩

/-- Fresh startup state whose file holds the serialization of the empty
store. -/
def c3Start : SysState :=
  { clip := Clipboard.new "clipboard.json", file := some (storeToJson []) }

/-- The state after the CSV import below: data changed in memory, file
untouched. -/
def c3AfterImport : SysState := { clip := { data := [("h", [("k", "v")])], filepath := "clipboard.json", current := "default" }, file := some (storeToJson []) }

/-- The state the Delete action produces from `c3AfterImport`: data mutated
AND file rewritten. -/
def c3AfterDelete : SysState := { clip := { data := [("h", [])], filepath := "clipboard.json", current := "default" }, file := some (storeToJson [("h", [])]) }

/-- C3 (code bug): Save (`save`, line 56) and Delete (`delete`, line 168)
call `save_data` before returning — witnessed below on concrete states — but
`import` returns without any `save_data`: after a successful CSV import the
in-memory data changed (one history, one entry) while the file still holds
the serialization of the empty pre-import store (0 object fields vs 1). -/
theorem c3_import_skips_persist :
    importCSVOp c3Start [["x", "x", "x"], ["h", "k", "v"]] = Except.ok c3AfterImport ∧
    jsonFieldCount (storeToJson []) = 0 ∧
    jsonFieldCount (storeToJson [("h", [("k", "v")])]) = 1 ∧
    (saveEntryOp c3Start "h" "k" "v").file =
      some (storeToJson (saveEntryOp c3Start "h" "k" "v").clip.data) ∧
    deleteOp c3AfterImport "h" "k" = Except.ok c3AfterDelete :=
  ⟨rfl, rfl, rfl, rfl, rfl⟩

/-- A state holding one history "h" with the single key "a". -/
def c4State : SysState :=
  { clip := { data := [("h", [("a", "1")])], filepath := "f", current := "default" },
    file := none }

/-- An empty-store state. -/
def c4Empty : SysState := { clip := Clipboard.new "f", file := none }

/-- C4 counterexample: on the empty store, looking up or deleting history "h"
evaluates to the modelled `HashMap`-indexing panic, and on a store whose
history "h" lacks the key "k", lookup evaluates to the modelled unwrap panic
while delete silently succeeds — none of the four evaluates to an explicit
`NotFound` error result (the `decide` conjuncts separate the constructors). -/
theorem c4_counterexample :
    getEntryData [] "h" "k" = Except.error RtError.panicIndex ∧
    deleteOp c4Empty "h" "k" = Except.error RtError.panicIndex ∧
    getEntryData [("h", [("a", "1")])] "h" "k" = Except.error RtError.panicUnwrap ∧
    deleteOp c4State "h" "k" =
      Except.ok { clip := c4State.clip, file := some (storeToJson [("h", [("a", "1")])]) } ∧
    decide (RtError.panicIndex = RtError.notFound) = false ∧
    decide (RtError.panicUnwrap = RtError.notFound) = false :=
  ⟨rfl, rfl, rfl, rfl, rfl, rfl⟩

/-- C4 (corrected): on an absent history, the Load-action lookup panics via
`HashMap` indexing and Delete panics the same way — neither returns
`NotFound`; on an absent key of an existing history, the lookup panics via
`unwrap` while Delete silently succeeds, re-persisting the unchanged store. -/
theorem c4_lookup_panics_on_absent (s : SysState) (h k : String) :
    (lookupA h s.clip.data = none →
       getEntryData s.clip.data h k = Except.error RtError.panicIndex ∧
       deleteOp s h k = Except.error RtError.panicIndex) ∧
    (∀ m, lookupA h s.clip.data = some m → lookupA k m = none →
       getEntryData s.clip.data h k = Except.error RtError.panicUnwrap ∧
       deleteOp s h k = Except.ok (saveDataOp s)) := by
  constructor
  · intro hl
    exact ⟨by simp [getEntryData, hl], by simp [deleteOp, hl]⟩
  · intro m hm hk
    refine ⟨by simp [getEntryData, hm, hk], ?_⟩
    have h1 : removeA k m = m := removeA_of_lookupA_none hk
    have h2 : insertA h m s.clip.data = s.clip.data := insertA_of_lookupA_some hm
    simp only [deleteOp, hm, h1, h2]

/-- C4 witness: both corrected behaviours evaluated on concrete states. -/
theorem c4_lookup_panics_on_absent_witness :
    (getEntryData c4Empty.clip.data "h" "k" = Except.error RtError.panicIndex ∧
       deleteOp c4Empty "h" "k" = Except.error RtError.panicIndex) ∧
    (getEntryData c4State.clip.data "h" "k" = Except.error RtError.panicUnwrap ∧
       deleteOp c4State "h" "k" = Except.ok (saveDataOp c4State)) :=
  ⟨(c4_lookup_panics_on_absent c4Empty "h" "k").1 rfl,
   (c4_lookup_panics_on_absent c4State "h" "k").2 [("a", "1")] rfl rfl⟩

/-- A base store holding an old value for key "x" of history "a". -/
def c5Base : StoreData := [("a", [("x", "old")])]

/-- Import records with a duplicate (history, key) pair, in file row order. -/
def c5Triples : List (String × String × String) := [("a", "x", "n1"), ("a", "x", "n2")]

/-- C5: merging the accumulated import records into a base store gives, at
every (history, key), the value of the **last** matching import record in
file row order, and otherwise the base store's value (so imported data wins
every collision and absent histories are created); and the result, observed
through lookup, is unchanged when the base store is replaced by any store
with the same lookup function (independence of the pre-existing map's
internal iteration order). -/
theorem c5_merge_last_write_wins (base base2 : StoreData)
    (ts : List (String × String × String)) (h k : String)
    (hsame : ∀ n, lookupA n base = lookupA n base2) :
    lookup2 (mergeData base (accumulateTriples ts)) h k =
      oor (lastVal h k ts) (lookup2 base h k) ∧
    lookup2 (mergeData base (accumulateTriples ts)) h k =
      lookup2 (mergeData base2 (accumulateTriples ts)) h k := by
  have h1 := lookup2_merge_accumulate base ts h k
  have h2 := lookup2_merge_accumulate base2 ts h k
  have h3 : lookup2 base h k = lookup2 base2 h k := by
    unfold lookup2
    rw [hsame h]
  exact ⟨h1, by rw [h1, h2, h3]⟩

/-- C5 witness: importing two records for ("a","x") over an existing value
ends with the later record's value "n2". -/
theorem c5_merge_last_write_wins_witness :
    (lookup2 (mergeData c5Base (accumulateTriples c5Triples)) "a" "x" =
       oor (lastVal "a" "x" c5Triples) (lookup2 c5Base "a" "x") ∧
     lookup2 (mergeData c5Base (accumulateTriples c5Triples)) "a" "x" =
       lookup2 (mergeData c5Base (accumulateTriples c5Triples)) "a" "x") ∧
    lookup2 (mergeData c5Base (accumulateTriples c5Triples)) "a" "x" = some "n2" ∧
    oor (lastVal "a" "x" c5Triples) (lookup2 c5Base "a" "x") = some "n2" :=
  ⟨c5_merge_last_write_wins c5Base c5Base c5Triples "a" "x" (fun _ => rfl), rfl, rfl⟩

/-- A state with a populated history and an empty history. -/
def c6State : SysState := { clip := { data := [("work", [("snippet", "echo hi")]), ("empty", [])], filepath := "clipboard.json", current := "default" }, file := none }

/-- C6: saving any well-formed store to the canonical JSON file and loading
that file back yields exactly the state that was saved — every history name,
key and value string of the data mapping is reproduced unchanged. -/
theorem c6_save_load_roundtrip (s : SysState) (hwf : storeWF s.clip.data) :
    loadDataOp (saveDataOp s) = Except.ok (saveDataOp s) ∧
    (saveDataOp s).clip.data = s.clip.data :=
  ⟨loadDataOp_saveDataOp hwf, rfl⟩

/-- C6 witness: the round trip evaluated on a concrete store that includes an
empty history. -/
theorem c6_save_load_roundtrip_witness :
    (loadDataOp (saveDataOp c6State) = Except.ok (saveDataOp c6State) ∧
       (saveDataOp c6State).clip.data = c6State.clip.data) ∧
    (saveDataOp c6State).file =
      some (storeToJson [("work", [("snippet", "echo hi")]), ("empty", [])]) :=
  ⟨c6_save_load_roundtrip c6State (by decide), rfl⟩

/-- C7 counterexample: a header-plus-record file whose records all have 4
fields imports successfully (returning the first three fields), although no
record has exactly 3 fields; and a file whose records all have 2 fields
evaluates to the modelled out-of-bounds indexing panic, not to an explicit
error result. -/
theorem c7_counterexample :
    importCSVRows [["a", "b", "c", "d"], ["h", "k", "v", "x"]] =
      Except.ok [("h", "k", "v")] ∧
    List.length ["a", "b", "c", "d"] = 4 ∧
    List.length ["h", "k", "v", "x"] = 4 ∧
    importCSVRows [["a", "b"], ["h", "k"]] = Except.error RtError.panicIndex ∧
    decide (RtError.panicIndex = RtError.corruptData) = false :=
  ⟨rfl, rfl, rfl, rfl, rfl⟩

/-- C7 (corrected): CSV import consumes the first record as a header fixing
the expected field count; a later record whose field count differs from the
first record's yields the csv reader's unequal-lengths error result; when all
records share the first record's field count, the import succeeds taking the
first three fields of each record if that count is at least 3, and panics on
out-of-bounds indexing if that count is below 3. -/
theorem c7_csv_row_arity (header : List String) (rest : List (List String)) :
    (3 ≤ header.length → (∀ r ∈ rest, r.length = header.length) →
       importCSVRows (header :: rest) = Except.ok (rest.map firstThreeFields)) ∧
    (3 ≤ header.length → (∃ r ∈ rest, r.length ≠ header.length) →
       importCSVRows (header :: rest) = Except.error RtError.csvUnequalLengths) ∧
    (header.length < 3 → (∀ r ∈ rest, r.length = header.length) → rest ≠ [] →
       importCSVRows (header :: rest) = Except.error RtError.panicIndex) := by
  refine ⟨?_, ?_, ?_⟩
  · intro hw hlen
    exact readRecords_ok header.length hw rest hlen
  · intro hw hbad
    exact readRecords_unequal header.length hw rest hbad
  · intro hw hlen hne
    exact readRecords_panic header.length hw rest hlen hne

/-- C7 witness: the three corrected behaviours evaluated on concrete files. -/
theorem c7_csv_row_arity_witness :
    importCSVRows [["a", "b", "c"], ["h", "k", "v"]] =
      Except.ok ([["h", "k", "v"]].map firstThreeFields) ∧
    importCSVRows [["a", "b", "c"], ["h", "k", "v", "w"]] =
      Except.error RtError.csvUnequalLengths ∧
    importCSVRows [["a", "b"], ["x", "y"]] = Except.error RtError.panicIndex :=
  ⟨(c7_csv_row_arity ["a", "b", "c"] [["h", "k", "v"]]).1 (by decide) (by decide),
   (c7_csv_row_arity ["a", "b", "c"] [["h", "k", "v", "w"]]).2.1 (by decide) (by decide),
   (c7_csv_row_arity ["a", "b"] [["x", "y"]]).2.2 (by decide) (by decide) (by decide)⟩

/-- C8: the Search action rejects an empty term with `InvalidInput` (the
prompt validator refuses it), for every store — in particular the matching
loop is never reached, so an empty term is never treated as matching every
entry. -/
theorem c8_empty_term_invalid_input (d : StoreData) :
    searchOp d "" = Except.error RtError.invalidInput := rfl

/-- The state the Delete action builds when history `h` currently holds the
map `m`: remove `k` from `m` in place, then `save_data`. -/
def deleteResult (s : SysState) (h : String) (m : Hist) (k : String) : SysState :=
  saveDataOp { s with clip := { s.clip with data := insertA h (removeA k m) s.clip.data } }

/-- C9: deleting the last remaining key of a history leaves the history
present with an empty entry map, the Delete action persists that state, and
loading the persisted file restores the very same state, empty history
included. -/
theorem c9_empty_history_persists (s : SysState) (h k v : String)
    (hwf : storeWF s.clip.data) (hh : lookupA h s.clip.data = some [(k, v)]) :
    deleteOp s h k = Except.ok (deleteResult s h [(k, v)] k) ∧
    lookupA h (deleteResult s h [(k, v)] k).clip.data = some [] ∧
    (deleteResult s h [(k, v)] k).file =
      some (storeToJson (deleteResult s h [(k, v)] k).clip.data) ∧
    loadDataOp (deleteResult s h [(k, v)] k) = Except.ok (deleteResult s h [(k, v)] k) := by
  have hrm : removeA k [(k, v)] = [] := by simp [removeA]
  refine ⟨by simp [deleteOp, hh, deleteResult], ?_, rfl, ?_⟩
  · show lookupA h (insertA h (removeA k [(k, v)]) s.clip.data) = some []
    rw [hrm, lookupA_insertA, if_pos rfl]
  · have hwf' : storeWF (insertA h (removeA k [(k, v)]) s.clip.data) := by
      rw [hrm]
      exact storeWF_insertA_store hwf (by simp [keysNodup, keysA])
    exact loadDataOp_saveDataOp hwf'

/-- A state whose history "h" has exactly one key. -/
def c9State : SysState := { clip := { data := [("h", [("k", "v")])], filepath := "f", current := "default" }, file := none }

/-- C9 witness: deleting the only key of "h" on a concrete state. -/
theorem c9_empty_history_persists_witness :
    deleteOp c9State "h" "k" = Except.ok (deleteResult c9State "h" [("k", "v")] "k") ∧
    lookupA "h" (deleteResult c9State "h" [("k", "v")] "k").clip.data = some [] ∧
    (deleteResult c9State "h" [("k", "v")] "k").file =
      some (storeToJson (deleteResult c9State "h" [("k", "v")] "k").clip.data) ∧
    loadDataOp (deleteResult c9State "h" [("k", "v")] "k") =
      Except.ok (deleteResult c9State "h" [("k", "v")] "k") :=
  c9_empty_history_persists c9State "h" "k" "v" (by decide) rfl

/-- C10: `save_data` writes exactly the serialization of the data mapping and
leaves the in-memory struct untouched (its output depends only on the data
mapping); `load_data` replaces only the data mapping, never filepath or
current; `Clipboard::new` sets current to "default"; and any successful
startup — with or without an existing file — yields current = "default", so
the previous session's selection never survives a restart. -/
theorem c10_persistence_frame :
    (∀ s : SysState, (saveDataOp s).clip = s.clip ∧
       (saveDataOp s).file = some (storeToJson s.clip.data)) ∧
    (∀ s1 s2 : SysState, s1.clip.data = s2.clip.data →
       (saveDataOp s1).file = (saveDataOp s2).file) ∧
    (∀ s s' : SysState, loadDataOp s = Except.ok s' →
       s'.clip.filepath = s.clip.filepath ∧ s'.clip.current = s.clip.current ∧
       s'.file = s.file) ∧
    (∀ fp : String, (Clipboard.new fp).current = "default") ∧
    (∀ (f : Option Json) (s : SysState), startup f = Except.ok s →
       s.clip.current = "default") := by
  have hload : ∀ s s' : SysState, loadDataOp s = Except.ok s' →
      s'.clip.filepath = s.clip.filepath ∧ s'.clip.current = s.clip.current ∧
      s'.file = s.file := by
    intro s s' hld
    cases hf : s.file with
    | none =>
      simp only [loadDataOp, hf] at hld
      exact Except.noConfusion hld
    | some j =>
      simp only [loadDataOp, hf] at hld
      cases hj : jsonToStore j with
      | none =>
        rw [hj] at hld
        exact Except.noConfusion hld
      | some d =>
        rw [hj] at hld
        injection hld with hld
        subst hld
        exact ⟨rfl, rfl, rfl⟩
  refine ⟨fun s => ⟨rfl, rfl⟩, fun s1 s2 hd => ?_, hload, fun fp => rfl, ?_⟩
  · show some (storeToJson s1.clip.data) = some (storeToJson s2.clip.data)
    rw [hd]
  · intro f s hst
    cases f with
    | none =>
      simp only [startup] at hst
      injection hst with hst
      subst hst
      rfl
    | some j =>
      have hst' : loadDataOp { clip := Clipboard.new "clipboard.json", file := some j } =
          Except.ok s := hst
      have hcur := (hload _ _ hst').2.1
      rw [hcur]
      rfl

/-- A state with a non-default selection, to exercise the frame condition. -/
def c10State : SysState := { clip := { data := [("a", [("b", "c")])], filepath := "p", current := "chosen" }, file := some Json.null }

/-- `c10State` with different filepath, current and file but the same data. -/
def c10Alt : SysState := { clip := { data := [("a", [("b", "c")])], filepath := "q", current := "other" }, file := none }

/-- A state about to load a one-entry file. -/
def c10LoadSrc : SysState := { clip := Clipboard.new "p2", file := some (storeToJson [("x", [("y", "z")])]) }

/-- The state `load_data` produces from `c10LoadSrc`. -/
def c10Loaded : SysState := { clip := { data := [("x", [("y", "z")])], filepath := "p2", current := "default" }, file := some (storeToJson [("x", [("y", "z")])]) }

/-- C10 witness: every frame condition evaluated on concrete states. -/
theorem c10_persistence_frame_witness :
    ((saveDataOp c10State).clip = c10State.clip ∧
       (saveDataOp c10State).file = some (storeToJson c10State.clip.data)) ∧
    (saveDataOp c10State).file = (saveDataOp c10Alt).file ∧
    (c10Loaded.clip.filepath = c10LoadSrc.clip.filepath ∧
       c10Loaded.clip.current = c10LoadSrc.clip.current ∧
       c10Loaded.file = c10LoadSrc.file) ∧
    (Clipboard.new "w").current = "default" ∧
    ({ clip := Clipboard.new "clipboard.json", file := none } : SysState).clip.current =
      "default" :=
  ⟨c10_persistence_frame.1 c10State,
   c10_persistence_frame.2.1 c10State c10Alt rfl,
   c10_persistence_frame.2.2.1 c10LoadSrc c10Loaded rfl,
   c10_persistence_frame.2.2.2.1 "w",
   c10_persistence_frame.2.2.2.2 none { clip := Clipboard.new "clipboard.json", file := none }
     rfl⟩

end RustyClip
